import Mathlib

/-!
Verification of the Maubin navigation routing core (`src/api/app.py`).

This file gives a shallow embedding of the road-graph routing engine:

* `get_or_create_node`, `snapOne`, `snapCoords` — coordinate snapping during
  graph build (`RoadGraph.build_graph`, inner `get_or_create_node`);
* `insertSegEdge`, `addSegments`, `buildGraph` — edge creation and the full
  build loop over road records;
* `find_nearest_node` — nearest-node resolution with the 500 m bound;
* `dijkstraCore`, `walkPrev`, `dijkstra` — the Dijkstra loop, predecessor-walk
  path reconstruction, and the full route computation returning coordinates,
  total distance and segment descriptors;
* `plan_route` — the request-level wrapper classifying the error outcomes.

Python float values (lengths, distances) are modelled as elements of an
arbitrary linear ordered commutative ring `R` (think `ℚ` or `ℝ`; the engine
only ever adds and compares distances), with `float('inf')` rendered as
`none` in `Option R` (helpers `oLT`, `oadd`).  The external geopy
`great_circle` function (`calculate_distance`) is an abstract parameter
`d : α → α → R` on an abstract coordinate type `α`.  Python dicts are
insertion-ordered association lists (`dictLookup`, `dictInsert`); the
`unvisited` set is modelled by a list in insertion order (CPython's `min`
over a set picks some minimal element; here the first minimal in that
order).  Concrete witnesses instantiate `R := ℤ` (distances in whole
metres); counterexamples that need sub-metre distances instantiate
`R := ℚ`.
-/

set_option maxHeartbeats 1600000

namespace MaubinNav

/-- Strict `<` on Python floats where `none` stands for `float('inf')`. -/
def oLT {R : Type} [LinearOrderedCommRing R] : Option R → Option R → Bool
  | some a, some b => decide (a < b)
  | some _, none => true
  | none, _ => false

/-- Addition of a float (possibly `inf`) and a finite float. -/
def oadd {R : Type} [LinearOrderedCommRing R] : Option R → R → Option R
  | none, _ => none
  | some a, l => some (a + l)

/-- The edge payload stored in `self.edges[(start_node, end_node)]`:
road id, length and the two-point geometry. -/
structure EdgeData (R α : Type) where
  rid : ℕ
  length : R
  geometry : α × α
deriving DecidableEq

/-- The graph state: `self.nodes` (node → adjacency list) and `self.edges`
((from, to) → edge data), both insertion-ordered dicts. -/
structure RoadGraph (R α : Type) where
  nodes : List (α × List α)
  edges : List ((α × α) × EdgeData R α)
deriving DecidableEq

/-- A road row as read by `build_graph`: id, the WKT linestring (each
coordinate token either parses to a point or fails, modelling `float()`
raising `ValueError`), the optional `length_m` per-segment array and the
one-way flag. -/
structure Road (R α : Type) where
  rid : ℕ
  wkt : List (Option α)
  length_m : Option (List R)
  is_oneway : Bool

/-- Python-dict lookup on an association list. -/
def dictLookup {κ ν : Type} [DecidableEq κ] (k : κ) : List (κ × ν) → Option ν
  | [] => none
  | p :: rest => if p.1 = k then some p.2 else dictLookup k rest

/-- Python-dict assignment `dict[k] = v`: replaces the value in place if the
key exists (keeping its position), otherwise appends the new binding. -/
def dictInsert {κ ν : Type} [DecidableEq κ] (k : κ) (v : ν) : List (κ × ν) → List (κ × ν)
  | [] => [(k, v)]
  | p :: rest => if p.1 = k then (k, v) :: rest else p :: dictInsert k v rest

/-- Number of bindings for key `k` (a well-formed dict has at most one). -/
def keyCount {κ ν : Type} [DecidableEq κ] (l : List (κ × ν)) (k : κ) : ℕ :=
  (l.filter (fun p => decide (p.1 = k))).length

/-- `self.nodes[a].append(b)` — append `b` to the adjacency list of key `a`. -/
def adjAppend {α : Type} [DecidableEq α] (a b : α) : List (α × List α) → List (α × List α)
  | [] => []
  | p :: rest => if p.1 = a then (p.1, p.2 ++ [b]) :: rest else p :: adjAppend a b rest

/-- The snapping threshold `SNAP_THRESHOLD_METERS = 1` (the `threshold=1`
default of `get_or_create_node`). -/
def SNAP_THRESHOLD_METERS (R : Type) [LinearOrderedCommRing R] : R := 1

/-- The inner `get_or_create_node(coord, node_map, threshold)` of
`build_graph`: scan the registered nodes in insertion order and return the
first one strictly within `threshold` of `coord`; if none, return the raw
coordinate itself. -/
def get_or_create_node {R α : Type} [LinearOrderedCommRing R] (d : α → α → R) (t : R)
    (c : α) : List (α × List α) → α
  | [] => c
  | p :: rest => if d c p.1 < t then p.1 else get_or_create_node d t c rest

/-- The list of registered node keys, in insertion order. -/
def nodeKeys {R α : Type} (g : RoadGraph R α) : List α := g.nodes.map (fun p => p.1)

/-- One step of the snapping loop: snap a raw coordinate, registering it as a
new node (with an empty adjacency list) when no existing node is within the
threshold. -/
def snapOne {R α : Type} [LinearOrderedCommRing R] [DecidableEq α] (d : α → α → R)
    (c : α) (g : RoadGraph R α) : α × RoadGraph R α :=
  let s := get_or_create_node d (SNAP_THRESHOLD_METERS R) c g.nodes
  if s ∈ nodeKeys g then (s, g)
  else (s, { g with nodes := g.nodes ++ [(s, [])] })

/-- Snap a whole coordinate list, threading the growing node map. -/
def snapCoords {R α : Type} [LinearOrderedCommRing R] [DecidableEq α] (d : α → α → R) :
    List α → RoadGraph R α → List α × RoadGraph R α
  | [], g => ([], g)
  | c :: cs, g =>
    let p := snapOne d c g
    let q := snapCoords d cs p.2
    (p.1 :: q.1, q.2)

/-- The two mutations performed for one directed segment:
`self.nodes[a].append(b)` and `self.edges[(a, b)] = e`. -/
def insertSegEdge {R α : Type} [DecidableEq α] (g : RoadGraph R α) (a b : α)
    (e : EdgeData R α) : RoadGraph R α :=
  { nodes := adjAppend a b g.nodes, edges := dictInsert (a, b) e g.edges }

/-- The per-segment length: `segment_lengths[i] if segment_lengths and
i < len(segment_lengths) else calculate_distance(start_node, end_node)` —
the provided entry when the array is present (non-NULL, non-empty) and `i`
is in range, else the recomputed distance between the snapped endpoints. -/
def segLen {R α : Type} [LinearOrderedCommRing R] (d : α → α → R)
    (lens : Option (List R)) (i : ℕ) (a b : α) : R :=
  match lens with
  | some ls => ls.getD i (d a b)
  | none => d a b

/-- The body of the edge-creation loop for one consecutive snapped pair:
insert the forward edge, and for a non-one-way road also the mirrored
reverse edge with identical length and road id. -/
def segStep {R α : Type} [LinearOrderedCommRing R] [DecidableEq α] (d : α → α → R)
    (rid : ℕ) (lens : Option (List R)) (oneway : Bool) (i : ℕ) (a b : α)
    (g : RoadGraph R α) : RoadGraph R α :=
  let len := segLen d lens i a b
  let g1 := insertSegEdge g a b { rid := rid, length := len, geometry := (a, b) }
  if oneway then g1 else
    insertSegEdge g1 b a { rid := rid, length := len, geometry := (b, a) }

/-- The edge-creation loop over consecutive snapped coordinates, carrying the
segment index `i` used to index `length_m`. -/
def addSegments {R α : Type} [LinearOrderedCommRing R] [DecidableEq α] (d : α → α → R)
    (rid : ℕ) (lens : Option (List R)) (oneway : Bool) :
    ℕ → List α → RoadGraph R α → RoadGraph R α
  | i, a :: b :: rest, g =>
    addSegments d rid lens oneway (i + 1) (b :: rest) (segStep d rid lens oneway i a b g)
  | _, _, g => g

/-- Parsing of the WKT coordinate list: the Python comprehension
`[tuple(map(float, c.split())) for c in ...]` raises as soon as one token
fails, so a single bad token makes the whole parse fail. -/
def parseCoords {α : Type} : List (Option α) → Option (List α)
  | [] => some []
  | none :: _ => none
  | some c :: rest =>
    match parseCoords rest with
    | some cs => some (c :: cs)
    | none => none

/-- The body of the `for road in roads` loop of `build_graph`.  A parse
failure propagates (the Python exception aborts `build_graph`), modelled by
the whole build returning `none`. -/
def buildGraphAux {R α : Type} [LinearOrderedCommRing R] [DecidableEq α]
    (d : α → α → R) : List (Road R α) → RoadGraph R α → Option (RoadGraph R α)
  | [], g => some g
  | r :: rs, g =>
    match parseCoords r.wkt with
    | none => none
    | some coords =>
      let p := snapCoords d coords g
      buildGraphAux d rs (addSegments d r.rid r.length_m r.is_oneway 0 p.1 p.2)

/-- `RoadGraph.build_graph`: rebuild the graph from scratch from the road
records. -/
def buildGraph {R α : Type} [LinearOrderedCommRing R] [DecidableEq α] (d : α → α → R)
    (roads : List (Road R α)) : Option (RoadGraph R α) :=
  buildGraphAux d roads { nodes := [], edges := [] }

/-- The nearest-node bound `max_distance = 500` of `find_nearest_node`. -/
def MAX_NODE_DISTANCE (R : Type) [LinearOrderedCommRing R] : R := 500

/-- The scan of `find_nearest_node`: keep the strictly closer candidate, so
the first minimal node in iteration order wins. -/
def nearestScan {R α : Type} [LinearOrderedCommRing R] (d : α → α → R) (point : α) :
    List α → Option R → Option α → Option R × Option α
  | [], m, best => (m, best)
  | n :: ns, m, best =>
    if oLT (some (d point n)) m then nearestScan d point ns (some (d point n)) (some n)
    else nearestScan d point ns m best

/-- `RoadGraph.find_nearest_node`: linear scan over all node keys; `none` when
the minimum distance exceeds 500 m (in particular when the graph is empty). -/
def find_nearest_node {R α : Type} [LinearOrderedCommRing R] [DecidableEq α]
    (d : α → α → R) (g : RoadGraph R α) (point : α) : Option α :=
  match nearestScan d point (nodeKeys g) none none with
  | (none, _) => none
  | (some m, best) => if MAX_NODE_DISTANCE R < m then none else best

/-- The mutable state of the Dijkstra loop: tentative distances, predecessor
links and the unvisited set (kept in insertion order). -/
structure DState (R α : Type) where
  dist : α → Option R
  prev : α → Option α
  unvisited : List α

/-- `min(unvisited, key=lambda node: distances[node], default=None)`:
the first element attaining the minimal tentative distance. -/
def pickMin {R α : Type} [LinearOrderedCommRing R] (dist : α → Option R) :
    List α → Option α
  | [] => none
  | x :: xs =>
    match pickMin dist xs with
    | none => some x
    | some y => if oLT (dist y) (dist x) then some y else some x

/-- Adjacency list of a node (`self.nodes[current]`; in every built graph the
key is present, so the `[]` default is never exercised there). -/
def adjOf {R α : Type} [DecidableEq α] (g : RoadGraph R α) (x : α) : List α :=
  (dictLookup x g.nodes).getD []

/-- Relaxation of one outgoing neighbor of `current`: skip already-visited
neighbors, look the edge up, and update distance and predecessor together
when the new tentative distance is strictly smaller. -/
def relaxOne {R α : Type} [LinearOrderedCommRing R] [DecidableEq α] (g : RoadGraph R α)
    (current : α) (s : DState R α) (neighbor : α) : DState R α :=
  if neighbor ∈ s.unvisited then
    match dictLookup (current, neighbor) g.edges with
    | some e =>
      let nd := oadd (s.dist current) e.length
      if oLT nd (s.dist neighbor) then
        { s with
          dist := fun v => if v = neighbor then nd else s.dist v,
          prev := fun v => if v = neighbor then some current else s.prev v }
      else s
    | none => s
  else s

/-- The `for neighbor in self.nodes[current]` relaxation loop. -/
def relaxList {R α : Type} [LinearOrderedCommRing R] [DecidableEq α] (g : RoadGraph R α)
    (current : α) : List α → DState R α → DState R α
  | [], s => s
  | n :: ns, s => relaxList g current ns (relaxOne g current s n)

/-- The `while unvisited` loop of `dijkstra`.  Each iteration pops the minimal
unvisited node; it stops early on an infinite minimum or on popping the
destination.  One unit of fuel is spent per pop, so fuel `|nodes|` is exactly
the number of iterations the Python loop can make. -/
def dijkstraLoop {R α : Type} [LinearOrderedCommRing R] [DecidableEq α]
    (g : RoadGraph R α) (endNode : α) : ℕ → DState R α → DState R α
  | 0, s => s
  | fuel + 1, s =>
    if s.unvisited.isEmpty then s
    else
      match pickMin s.dist s.unvisited with
      | none => s
      | some current =>
        if s.dist current = none then s
        else
          let s1 : DState R α := { s with unvisited := s.unvisited.erase current }
          if current = endNode then s1
          else dijkstraLoop g endNode fuel (relaxList g current (adjOf g current) s1)

/-- The Dijkstra initialisation and loop (the part of `RoadGraph.dijkstra`
between nearest-node resolution and path reconstruction): distance 0 for the
start node, `inf` elsewhere, empty predecessors, all nodes unvisited. -/
def dijkstraCore {R α : Type} [LinearOrderedCommRing R] [DecidableEq α]
    (g : RoadGraph R α) (startNode endNode : α) : DState R α :=
  dijkstraLoop g endNode (nodeKeys g).length
    { dist := fun v => if v = startNode then some 0 else none,
      prev := fun _ => none,
      unvisited := nodeKeys g }

/-- The predecessor walk `while current: path.insert(0, current); current =
previous_nodes.get(current)`.  The fuel bounds the number of steps; for the
predecessor maps produced by `dijkstraCore` the fuel `|nodes| + 1` is never
exhausted (the links are provably acyclic). -/
def walkPrev {α : Type} (prev : α → Option α) : ℕ → α → List α → List α
  | 0, cur, acc => cur :: acc
  | fuel + 1, cur, acc =>
    match prev cur with
    | none => cur :: acc
    | some u => walkPrev prev fuel u (cur :: acc)

/-- Road-segment descriptor tags: a real road id or one of the synthetic
markers `user_to_road`, `road_to_user`, `unknown_road`. -/
inductive SegTag where
  | real (rid : ℕ)
  | userToRoad
  | roadToUser
  | unknownRoad
deriving DecidableEq

/-- One entry of the returned `road_segments` list (id tag and length). -/
structure Segment (R : Type) where
  tag : SegTag
  length : R
deriving DecidableEq

/-- Sum of the `length` fields of a segment list. -/
def segsSum {R : Type} [LinearOrderedCommRing R] (l : List (Segment R)) : R :=
  (l.map Segment.length).sum

/-- The per-edge part of the reconstruction loop: for each consecutive node
pair either a real segment from the stored edge or (defensively) an
`unknown_road` segment with the instantaneous distance. -/
def reconSegs {R α : Type} [LinearOrderedCommRing R] [DecidableEq α] (d : α → α → R)
    (g : RoadGraph R α) : List α → List (Segment R)
  | x :: y :: rest =>
    (match dictLookup (x, y) g.edges with
      | some e => { tag := SegTag.real e.rid, length := e.length }
      | none => { tag := SegTag.unknownRoad, length := d x y }) :: reconSegs d g (y :: rest)
  | _ => []

/-- The coordinates appended by the reconstruction loop (the far endpoint of
the stored edge geometry, or the raw node in the defensive branch). -/
def reconCoords {R α : Type} [DecidableEq α] (g : RoadGraph R α) : List α → List α
  | x :: y :: rest =>
    (match dictLookup (x, y) g.edges with
      | some e => e.geometry.2
      | none => y) :: reconCoords g (y :: rest)
  | _ => []

/-- Sum of stored edge lengths along consecutive pairs of a node path
(`none` if some pair has no stored edge). -/
def pathEdgeSum {R α : Type} [LinearOrderedCommRing R] [DecidableEq α]
    (g : RoadGraph R α) : List α → Option R
  | x :: y :: rest =>
    match dictLookup (x, y) g.edges, pathEdgeSum g (y :: rest) with
    | some e, some s => some (e.length + s)
    | _, _ => none
  | _ => some 0

/-- The node path and the Dijkstra-accumulated cost `distances[end_node]`, as
used by the reconstruction: `none` in the `previous_nodes.get(end_node) is
None` case.  (The second pattern also requires a finite distance; whenever a
predecessor is recorded the distance is provably finite, so this matches the
source, which just reads the float `distances[end_node]`.) -/
def dijkstraNodePath {R α : Type} [LinearOrderedCommRing R] [DecidableEq α]
    (g : RoadGraph R α) (startNode endNode : α) : Option (List α × R) :=
  let st := dijkstraCore g startNode endNode
  match st.prev endNode, st.dist endNode with
  | some _, some qEnd =>
    some (walkPrev st.prev ((nodeKeys g).length + 1) endNode [], qEnd)
  | _, _ => none

/-- `RoadGraph.dijkstra(start, end)`: resolve both endpoints, run the core,
on success reconstruct coordinates, total distance
(start→startNode distance + `distances[end_node]` + endNode→end distance)
and the segment list; `(None, 0, [])` failures are modelled as `none`. -/
def dijkstra {R α : Type} [LinearOrderedCommRing R] [DecidableEq α] (d : α → α → R)
    (g : RoadGraph R α) (start fin : α) : Option (List α × R × List (Segment R)) :=
  match find_nearest_node d g start, find_nearest_node d g fin with
  | some startNode, some endNode =>
    let st := dijkstraCore g startNode endNode
    match st.prev endNode, st.dist endNode with
    | some _, some qEnd =>
      let path := walkPrev st.prev ((nodeKeys g).length + 1) endNode []
      let d1 := d start startNode
      let segs1 : List (Segment R) :=
        if start ≠ startNode ∧ 0 < d1 then [{ tag := SegTag.userToRoad, length := d1 }]
        else []
      let coords1 : List α := if start ≠ startNode then [start, startNode] else [start]
      let d2 := d endNode fin
      let segs2 : List (Segment R) :=
        if fin ≠ endNode ∧ 0 < d2 then [{ tag := SegTag.roadToUser, length := d2 }]
        else []
      let coords := coords1 ++ reconCoords g path
      let coordsFin := if coords.getLast? = some fin then coords else coords ++ [fin]
      some (coordsFin, d1 + qEnd + d2, segs1 ++ reconSegs d g path ++ segs2)
    | _, _ => none
  | _, _ => none

/-- A raw request field: `none` = key missing (`data.get` returned `None`),
`some none` = present but `float()` raises, `some (some q)` = parses. -/
abbrev RawField (R : Type) : Type := Option (Option R)

/-- The JSON body of a `/routes` request. -/
structure RouteInput (R : Type) where
  start_lon : RawField R
  start_lat : RawField R
  end_lon : RawField R
  end_lat : RawField R

/-- The distinguishable outcomes of `plan_route`: the 400 "Missing
coordinates" response, the 400 "Invalid coordinates" response, the 404 "No
valid route found" response, and success. -/
inductive RouteOutcome (R : Type) where
  | missingCoords
  | invalidCoords
  | noValidRoute
  | ok (coords : List (R × R)) (total : R) (segs : List (Segment R))
deriving DecidableEq

/-- The `/routes` handler `plan_route` (after the auth preamble): missing
coordinates, then `float()` conversion, then `road_graph.dijkstra`; a `None`
path or one of fewer than two coordinates yields the 404 response. -/
def plan_route {R : Type} [LinearOrderedCommRing R] (d : R × R → R × R → R)
    (g : RoadGraph R (R × R)) (inp : RouteInput R) : RouteOutcome R :=
  if inp.start_lon = none ∨ inp.start_lat = none ∨ inp.end_lon = none ∨ inp.end_lat = none
  then RouteOutcome.missingCoords
  else
    match inp.start_lon, inp.start_lat, inp.end_lon, inp.end_lat with
    | some (some slon), some (some slat), some (some elon), some (some elat) =>
      match dijkstra d g (slon, slat) (elon, elat) with
      | none => RouteOutcome.noValidRoute
      | some (coords, total, segs) =>
        if coords.length < 2 then RouteOutcome.noValidRoute
        else RouteOutcome.ok coords total segs
    | _, _, _, _ => RouteOutcome.invalidCoords

/-- Integer points (whole-metre coordinates) used by witnesses. -/
abbrev PtZ : Type := ℤ × ℤ

/-- Absolute difference, written with `if` so that it evaluates in proofs. -/
def ddist {R : Type} [LinearOrderedCommRing R] (a b : R) : R :=
  if a ≤ b then b - a else a - b

/-- Taxicab distance on integer points: a concrete, kernel-computable
instance of the abstract great-circle distance parameter (collinear
configurations are realisable by `great_circle` along one meridian). -/
def dZ (p q : PtZ) : ℤ := ddist p.1 q.1 + ddist p.2 q.2

/-- Rational points, used by the sub-metre snapping counterexamples. -/
abbrev PtQ : Type := ℚ × ℚ

/-- Taxicab distance on rational points. -/
def dQ (p q : PtQ) : ℚ := ddist p.1 q.1 + ddist p.2 q.2

end MaubinNav

namespace MaubinNav

/-! ### Generic lemmas about the dict primitives -/

theorem dictLookup_mem {κ ν : Type} [DecidableEq κ] {k : κ} {v : ν} :
    ∀ {l : List (κ × ν)}, dictLookup k l = some v → (k, v) ∈ l := by
  intro l
  induction l with
  | nil => intro h; simp [dictLookup] at h
  | cons p rest ih =>
    intro h
    by_cases hp : p.1 = k
    · simp [dictLookup, hp] at h
      have hkv : (k, v) = p := by
        obtain ⟨k', v'⟩ := p
        simp at hp h
        simp [hp, h]
      rw [hkv]
      exact List.mem_cons_self p rest
    · simp [dictLookup, hp] at h
      exact List.mem_cons_of_mem p (ih h)

theorem dictLookup_of_mem_keys {κ ν : Type} [DecidableEq κ] {k : κ} :
    ∀ {l : List (κ × ν)}, k ∈ l.map (fun p => p.1) → ∃ v, dictLookup k l = some v := by
  intro l
  induction l with
  | nil => intro h; simp at h
  | cons p rest ih =>
    intro h
    by_cases hp : p.1 = k
    · exact ⟨p.2, by simp [dictLookup, hp]⟩
    · simp only [dictLookup, if_neg hp]
      apply ih
      simp at h ⊢
      rcases h with h | h
      · exact absurd h.symm hp
      · exact h

theorem dictLookup_dictInsert_self {κ ν : Type} [DecidableEq κ] (k : κ) (v : ν) :
    ∀ (l : List (κ × ν)), dictLookup k (dictInsert k v l) = some v := by
  intro l
  induction l with
  | nil => simp [dictInsert, dictLookup]
  | cons p rest ih =>
    by_cases hp : p.1 = k
    · simp [dictInsert, hp, dictLookup]
    · simp [dictInsert, hp, dictLookup, ih]

theorem keyCount_cons {κ ν : Type} [DecidableEq κ] (p : κ × ν) (l : List (κ × ν)) (k : κ) :
    keyCount (p :: l) k = (if p.1 = k then 1 else 0) + keyCount l k := by
  by_cases hp : p.1 = k
  · simp [keyCount, List.filter_cons, hp]
    omega
  · simp [keyCount, List.filter_cons, hp]

theorem keyCount_dictInsert {κ ν : Type} [DecidableEq κ] (k : κ) (v : ν) :
    ∀ (l : List (κ × ν)), keyCount l k ≤ 1 → keyCount (dictInsert k v l) k = 1 := by
  intro l
  induction l with
  | nil => intro _; simp [dictInsert, keyCount, List.filter_cons]
  | cons p rest ih =>
    intro h
    rw [keyCount_cons] at h
    by_cases hp : p.1 = k
    · rw [if_pos hp] at h
      have h0 : keyCount rest k = 0 := by omega
      simp only [dictInsert, if_pos hp]
      rw [keyCount_cons]
      simp [h0]
    · rw [if_neg hp] at h
      simp only [dictInsert, if_neg hp]
      rw [keyCount_cons, if_neg hp, ih (by omega)]

theorem mem_dictInsert {κ ν : Type} [DecidableEq κ] {k : κ} {v : ν} {kv : κ × ν} :
    ∀ {l : List (κ × ν)}, kv ∈ dictInsert k v l → kv = (k, v) ∨ kv ∈ l := by
  intro l
  induction l with
  | nil => intro h; simp [dictInsert] at h; exact Or.inl h
  | cons p rest ih =>
    intro h
    by_cases hp : p.1 = k
    · simp only [dictInsert, if_pos hp, List.mem_cons] at h
      rcases h with h | h
      · exact Or.inl h
      · exact Or.inr (List.mem_cons_of_mem p h)
    · simp only [dictInsert, if_neg hp, List.mem_cons] at h
      rcases h with h | h
      · exact Or.inr (by rw [h]; exact List.mem_cons_self p rest)
      · rcases ih h with h' | h'
        · exact Or.inl h'
        · exact Or.inr (List.mem_cons_of_mem p h')

theorem adjAppend_keys {α : Type} [DecidableEq α] (a b : α) :
    ∀ (l : List (α × List α)),
      (adjAppend a b l).map (fun p => p.1) = l.map (fun p => p.1) := by
  intro l
  induction l with
  | nil => simp [adjAppend]
  | cons p rest ih =>
    by_cases hp : p.1 = a
    · simp [adjAppend, hp]
    · simp [adjAppend, hp, ih]

theorem dictLookup_adjAppend_self {α : Type} [DecidableEq α] {a : α} (b : α) :
    ∀ {l : List (α × List α)} {adj : List α}, dictLookup a l = some adj →
      dictLookup a (adjAppend a b l) = some (adj ++ [b]) := by
  intro l
  induction l with
  | nil => intro adj h; simp [dictLookup] at h
  | cons p rest ih =>
    intro adj h
    by_cases hp : p.1 = a
    · simp [dictLookup, hp] at h
      simp [adjAppend, hp, dictLookup, h]
    · simp [dictLookup, hp] at h
      simp [adjAppend, hp, dictLookup, ih h]

/-! ### Lemmas about `get_or_create_node` -/

theorem goc_of_none {R α : Type} [LinearOrderedCommRing R] (d : α → α → R) (t : R)
    (c : α) : ∀ {nm : List (α × List α)}, (∀ p ∈ nm, ¬ d c p.1 < t) →
      get_or_create_node d t c nm = c := by
  intro nm
  induction nm with
  | nil => intro _; rfl
  | cons p rest ih =>
    intro h
    have hp : ¬ d c p.1 < t := h p (List.mem_cons_self p rest)
    simp only [get_or_create_node, if_neg hp]
    exact ih (fun q hq => h q (List.mem_cons_of_mem p hq))

theorem goc_first {R α : Type} [LinearOrderedCommRing R] (d : α → α → R) (t : R)
    (c : α) : ∀ (l1 : List (α × List α)) (p : α × List α) (l2 : List (α × List α)),
      d c p.1 < t → (∀ q ∈ l1, ¬ d c q.1 < t) →
      get_or_create_node d t c (l1 ++ p :: l2) = p.1 := by
  intro l1
  induction l1 with
  | nil =>
    intro p l2 hp _
    simp [get_or_create_node, if_pos hp]
  | cons q l1' ih =>
    intro p l2 hp h
    have hq : ¬ d c q.1 < t := h q (List.mem_cons_self q l1')
    simp only [List.cons_append, get_or_create_node, if_neg hq]
    exact ih p l2 hp (fun r hr => h r (List.mem_cons_of_mem q hr))

theorem goc_mem_keys {R α : Type} [LinearOrderedCommRing R] (d : α → α → R) (t : R)
    (c : α) : ∀ {nm : List (α × List α)}, (∃ p ∈ nm, d c p.1 < t) →
      get_or_create_node d t c nm ∈ nm.map (fun p => p.1) := by
  intro nm
  induction nm with
  | nil => intro h; simp at h
  | cons p rest ih =>
    intro h
    by_cases hp : d c p.1 < t
    · simp [get_or_create_node, if_pos hp]
    · simp only [get_or_create_node, if_neg hp, List.map_cons, List.mem_cons]
      right
      apply ih
      rcases h with ⟨q, hq, hqd⟩
      rcases List.mem_cons.mp hq with h' | h'
      · exact absurd (h' ▸ hqd) hp
      · exact ⟨q, h', hqd⟩

/-! ### Properties of the concrete taxicab distances -/

theorem ddist_self {R : Type} [LinearOrderedCommRing R] (a : R) : ddist a a = 0 := by
  simp [ddist]

theorem ddist_nonneg {R : Type} [LinearOrderedCommRing R] (a b : R) : 0 ≤ ddist a b := by
  unfold ddist
  split
  · linarith
  · linarith [lt_of_not_le (by assumption : ¬ a ≤ b)]

theorem dZ_self (p : PtZ) : dZ p p = 0 := by
  simp [dZ, ddist_self]

theorem dZ_nonneg (p q : PtZ) : 0 ≤ dZ p q :=
  add_nonneg (ddist_nonneg _ _) (ddist_nonneg _ _)

end MaubinNav

namespace MaubinNav

/-! ### Concrete inputs used by counterexamples and witnesses -/

/-- A two-way road of two nodes with provided segment length 100 (whole-metre
coordinates). -/
def rdTwoWayZ : Road ℤ PtZ :=
  { rid := 1, wkt := [some (0, 0), some (10, 0)], length_m := some [100],
    is_oneway := false }

/-- The graph built from `rdTwoWayZ`. -/
def gTwoWayZ : RoadGraph ℤ PtZ :=
  { nodes := [((0, 0), [(10, 0)]), ((10, 0), [(0, 0)])],
    edges :=
      [(((0, 0), (10, 0)), { rid := 1, length := 100, geometry := ((0, 0), (10, 0)) }),
       (((10, 0), (0, 0)), { rid := 1, length := 100, geometry := ((10, 0), (0, 0)) })] }

/-- A road whose second WKT token fails to parse (`float()` raises). -/
def rdBadZ : Road ℤ PtZ :=
  { rid := 3, wkt := [some (0, 0), none], length_m := none, is_oneway := true }

/-- A road carrying a negative provided per-segment length. -/
def rdNegZ : Road ℤ PtZ :=
  { rid := 4, wkt := [some (0, 0), some (10, 0)], length_m := some [-5],
    is_oneway := true }

/-- The graph built from `rdNegZ`. -/
def gNegZ : RoadGraph ℤ PtZ :=
  { nodes := [((0, 0), [(10, 0)]), ((10, 0), [])],
    edges := [(((0, 0), (10, 0)),
      { rid := 4, length := -5, geometry := ((0, 0), (10, 0)) })] }

/-- A three-node two-way road with provided lengths 100 and 200. -/
def rdThreeZ : Road ℤ PtZ :=
  { rid := 2, wkt := [some (0, 0), some (10, 0), some (25, 0)],
    length_m := some [100, 200], is_oneway := false }

/-- The graph built from `rdThreeZ`. -/
def gThreeZ : RoadGraph ℤ PtZ :=
  { nodes :=
      [((0, 0), [(10, 0)]), ((10, 0), [(0, 0), (25, 0)]), ((25, 0), [(10, 0)])],
    edges :=
      [(((0, 0), (10, 0)), { rid := 2, length := 100, geometry := ((0, 0), (10, 0)) }),
       (((10, 0), (0, 0)), { rid := 2, length := 100, geometry := ((10, 0), (0, 0)) }),
       (((10, 0), (25, 0)), { rid := 2, length := 200, geometry := ((10, 0), (25, 0)) }),
       (((25, 0), (10, 0)), { rid := 2, length := 200, geometry := ((25, 0), (10, 0)) })] }

/-- One of two far-apart disconnected one-way roads. -/
def rdFarAZ : Road ℤ PtZ :=
  { rid := 5, wkt := [some (0, 0), some (10, 0)], length_m := some [10],
    is_oneway := true }

/-- The other far-apart disconnected one-way road. -/
def rdFarBZ : Road ℤ PtZ :=
  { rid := 6, wkt := [some (10000, 0), some (10010, 0)], length_m := some [10],
    is_oneway := true }

/-- The graph built from the two disconnected roads. -/
def gFarZ : RoadGraph ℤ PtZ :=
  { nodes :=
      [((0, 0), [(10, 0)]), ((10, 0), []),
       ((10000, 0), [(10010, 0)]), ((10010, 0), [])],
    edges :=
      [(((0, 0), (10, 0)), { rid := 5, length := 10, geometry := ((0, 0), (10, 0)) }),
       (((10000, 0), (10010, 0)),
         { rid := 6, length := 10, geometry := ((10000, 0), (10010, 0)) })] }

/-- The empty graph (no road records). -/
def gEmptyZ : RoadGraph ℤ PtZ := { nodes := [], edges := [] }

/-- A node map holding, in registration order, a node 3 m away from the
origin followed by one 2 m away (used with threshold 5). -/
def nmZ : List (PtZ × List PtZ) := [((3, 0), []), ((2, 0), [])]

/-- A node map holding, in registration order, a node 0.9 m away from the
origin followed by a node 0.3 m away. -/
def nmFirstFarQ : List (PtQ × List PtQ) :=
  [(((9 : ℚ)/10, 0), []), (((3 : ℚ)/10, 0), [])]

/-- Three collinear raw coordinates 0.9 m apart each: the middle one snaps to
the first, the third becomes its own node. -/
def rdChainQ : Road ℚ PtQ :=
  { rid := 1, wkt := [some (0, 0), some ((9 : ℚ)/10, 0), some ((9 : ℚ)/5, 0)],
    length_m := none, is_oneway := true }

/-! ### C3 — snapping picks the first node within threshold, not the nearest -/

/-- C3 counterexample: with nodes registered 0.9 m away and then 0.3 m away
from the raw coordinate, `get_or_create_node` (threshold
`SNAP_THRESHOLD_METERS` = 1) returns the first-registered node within the
threshold (0.9 m away) even though a strictly nearer registered node (0.3 m
away, also within the threshold) exists — refuting "snapped to the nearest
such existing node". -/
theorem snap_not_nearest_cex :
    get_or_create_node dQ (SNAP_THRESHOLD_METERS ℚ) (0, 0) nmFirstFarQ = ((9 : ℚ)/10, 0) ∧
    dQ (0, 0) ((3 : ℚ)/10, 0) < dQ (0, 0) ((9 : ℚ)/10, 0) ∧
    dQ (0, 0) ((3 : ℚ)/10, 0) < SNAP_THRESHOLD_METERS ℚ ∧
    (((9 : ℚ)/10, 0) : PtQ) ≠ ((3 : ℚ)/10, 0) := by
  refine ⟨?_, ?_, ?_, ?_⟩ <;>
    norm_num [get_or_create_node, nmFirstFarQ, dQ, ddist, SNAP_THRESHOLD_METERS,
      Prod.ext_iff]

/-- C3 amended: a raw coordinate is snapped to the FIRST-REGISTERED node
strictly within the threshold in node-registration order (not necessarily
the nearest); only when no registered node is within the threshold is the
raw coordinate itself returned (to be registered as a new node). -/
theorem get_or_create_first_within_threshold {R α : Type} [LinearOrderedCommRing R]
    (d : α → α → R) (t : R) (c : α) (nm : List (α × List α)) :
    ((∀ p ∈ nm, ¬ d c p.1 < t) → get_or_create_node d t c nm = c) ∧
    (∀ (l1 : List (α × List α)) (p : α × List α) (l2 : List (α × List α)),
      nm = l1 ++ p :: l2 → d c p.1 < t → (∀ q ∈ l1, ¬ d c q.1 < t) →
      get_or_create_node d t c nm = p.1) :=
  ⟨fun h => goc_of_none d t c h,
   fun l1 p l2 hnm hp h => by rw [hnm]; exact goc_first d t c l1 p l2 hp h⟩

/-- Witness for the C3 amended theorem: with nodes 3 m and 2 m away
registered in that order and threshold 5 m, the first node (3 m away) is
returned. -/
theorem get_or_create_first_within_threshold_witness :
    get_or_create_node dZ (5 : ℤ) (0, 0) nmZ = (3, 0) :=
  (get_or_create_first_within_threshold dZ 5 (0, 0) nmZ).2
    [] ((3, 0), []) [((2, 0), [])] (by decide) (by decide)
    (by simp)

/-! ### C4 — threshold consistency of snapping fails by chaining -/

/-- C4 counterexample: feeding build a road with raw coordinates at 0, 0.9
and 1.8 metres (collinear), the second coordinate snaps to the first node
while the third becomes a new node — yet the second and third raw
coordinates are only 0.9 m apart, strictly within the threshold.  Two raw
coordinates within `SNAP_THRESHOLD_METERS` of each other do NOT always
collapse onto the same node. -/
theorem snapping_chain_cex :
    (snapCoords dQ [((0 : ℚ), 0), ((9 : ℚ)/10, 0), ((9 : ℚ)/5, 0)]
      ({ nodes := [], edges := [] } : RoadGraph ℚ PtQ)).1 =
      [(0, 0), (0, 0), ((9 : ℚ)/5, 0)] ∧
    (buildGraph dQ [rdChainQ]).map nodeKeys = some [(0, 0), ((9 : ℚ)/5, 0)] ∧
    dQ ((9 : ℚ)/10, 0) ((9 : ℚ)/5, 0) < SNAP_THRESHOLD_METERS ℚ ∧
    ((0, 0) : PtQ) ≠ ((9 : ℚ)/5, 0) := by
  refine ⟨?_, ?_, ?_, ?_⟩ <;>
    norm_num [buildGraph, buildGraphAux, parseCoords, rdChainQ, snapCoords, snapOne,
      get_or_create_node, nodeKeys, SNAP_THRESHOLD_METERS, dQ, ddist, addSegments,
      segStep, segLen, insertSegEdge, adjAppend, dictInsert, Prod.ext_iff]

/-- C4 amended: per coordinate, the build-time snapping step reuses an
already-registered node (the first within the threshold) whenever one is
strictly within `SNAP_THRESHOLD_METERS`, and registers the raw coordinate as
a new distinct node exactly when no registered node is within the threshold;
threshold consistency between different raw coordinates (the original claim)
fails by chaining. -/
theorem snap_threshold_behavior {R α : Type} [LinearOrderedCommRing R] [DecidableEq α]
    (d : α → α → R) (c : α) (g : RoadGraph R α) :
    (d c c = 0 → (∀ p ∈ g.nodes, ¬ d c p.1 < SNAP_THRESHOLD_METERS R) →
      c ∉ nodeKeys g ∧ snapOne d c g = (c, { g with nodes := g.nodes ++ [(c, [])] })) ∧
    ((∃ p ∈ g.nodes, d c p.1 < SNAP_THRESHOLD_METERS R) →
      (snapOne d c g).1 ∈ nodeKeys g) := by
  constructor
  · intro h0 hno
    have hgoc : get_or_create_node d (SNAP_THRESHOLD_METERS R) c g.nodes = c :=
      goc_of_none d (SNAP_THRESHOLD_METERS R) c hno
    have hc : c ∉ nodeKeys g := by
      intro hmem
      rcases List.mem_map.mp hmem with ⟨p, hp, hpc⟩
      apply hno p hp
      rw [hpc, h0, SNAP_THRESHOLD_METERS]
      exact zero_lt_one
    refine ⟨hc, ?_⟩
    simp only [snapOne, hgoc, if_neg hc]
  · intro h
    have hk : get_or_create_node d (SNAP_THRESHOLD_METERS R) c g.nodes ∈ nodeKeys g :=
      goc_mem_keys d (SNAP_THRESHOLD_METERS R) c h
    simp only [snapOne, if_pos hk]
    exact hk

/-- Witness for the C4 amended theorem: a coordinate 7 m from every node of
`gTwoWayZ` is registered as a new node. -/
theorem snap_threshold_behavior_witness :
    ((7, 0) : PtZ) ∉ nodeKeys gTwoWayZ ∧
    snapOne dZ ((7, 0) : PtZ) gTwoWayZ =
      ((7, 0), { gTwoWayZ with nodes := gTwoWayZ.nodes ++ [((7, 0), [])] }) :=
  (snap_threshold_behavior dZ ((7, 0) : PtZ) gTwoWayZ).1 (by decide) (by decide)

/-! ### C5 — a start = end query is reported as "no path" -/

/-- C5 counterexample: on the graph built from a single two-way road, both
the query start (exactly the node) and the query end (3 m away) resolve to
the same graph node `(0, 0)` — trivially reached with cost 0 since
distance-to-self is initialised to 0 — yet `dijkstra` returns the
`(None, 0, [])` no-path result, because it only checks
`previous_nodes.get(end_node) is None` and a same-node query never records a
predecessor. -/
theorem same_node_query_returns_nopath_cex :
    buildGraph dZ [rdTwoWayZ] = some gTwoWayZ ∧
    find_nearest_node dZ gTwoWayZ (0, 0) = some (0, 0) ∧
    find_nearest_node dZ gTwoWayZ (3, 0) = some (0, 0) ∧
    dijkstra dZ gTwoWayZ (0, 0) (3, 0) = none := by decide

/-! ### C6 — unresolved endpoint and no-path collapse to one outcome -/

/-- A syntactically valid route request from (0,0) to (10000,0). -/
def inpFarZ : RouteInput ℤ :=
  { start_lon := some (some 0), start_lat := some (some 0),
    end_lon := some (some 10000), end_lat := some (some 0) }

/-- C6 counterexample: on the empty graph the start endpoint is unresolved
(no node within 500 m), while on the two-disconnected-roads graph both
endpoints resolve but no path connects them; `plan_route` returns the very
same `noValidRoute` outcome (the 404 "No valid route found" response) in
both cases, so the unresolved-endpoint case is NOT reported distinctly from
the no-path case. -/
theorem plan_route_error_collapse_cex :
    find_nearest_node dZ gEmptyZ (0, 0) = none ∧
    plan_route dZ gEmptyZ inpFarZ = RouteOutcome.noValidRoute ∧
    buildGraph dZ [rdFarAZ, rdFarBZ] = some gFarZ ∧
    find_nearest_node dZ gFarZ (0, 0) = some (0, 0) ∧
    find_nearest_node dZ gFarZ (10000, 0) = some (10000, 0) ∧
    plan_route dZ gFarZ inpFarZ = RouteOutcome.noValidRoute := by decide

/-! ### C7 — a malformed road aborts the whole rebuild -/

/-- C7: the claim (and the spec) say a malformed road geometry is skipped
for that road only; in the code the `float()` parse error propagates out of
`build_graph`, so a build containing a malformed road aborts entirely
(produces no graph at all), while the same road set without the malformed
road builds fine.  The code contradicts the spec's "must not abort the whole
rebuild". -/
theorem malformed_road_aborts_build :
    buildGraph dZ [rdBadZ, rdTwoWayZ] = none ∧
    buildGraph dZ [rdTwoWayZ] = some gTwoWayZ := by decide

/-! ### C8 — provided lengths are used unvalidated -/

/-- C8 counterexample: a road record providing the per-segment length -5
produces an edge of cost -5 in the built graph, refuting "every edge cost in
the resulting graph is ≥ 0 (for arbitrary provided per-segment length
values)" — the provided entry is used without validation. -/
theorem negative_provided_length_cex :
    buildGraph dZ [rdNegZ] = some gNegZ ∧
    dictLookup ((0, 0), (10, 0)) gNegZ.edges =
      some { rid := 4, length := -5, geometry := ((0, 0), (10, 0)) } ∧
    ¬ (0 : ℤ) ≤ (-5 : ℤ) := by decide

/-! ### C10 — duplicate segments: last edge wins, adjacency accumulates -/

/-- C10: `insertSegEdge` is exactly the pair of mutations the build loop
performs per directed segment (for the forward edge of every road segment,
for the mirrored reverse edge of a two-way road, and across road records
alike).  When a second segment produces the same ordered node pair `(a, b)`,
the edge dict keeps exactly one binding for `(a, b)` — the one created last,
silently replacing the earlier edge's road id and length — while the
adjacency list of `a` accumulates one duplicate entry of `b` per segment. -/
theorem duplicate_segment_last_wins {R α : Type} [DecidableEq α] (g : RoadGraph R α)
    (a b : α) (adj : List α) (e1 e2 : EdgeData R α)
    (hcount : keyCount g.edges (a, b) ≤ 1)
    (hadj : dictLookup a g.nodes = some adj) :
    dictLookup (a, b) (insertSegEdge (insertSegEdge g a b e1) a b e2).edges = some e2 ∧
    keyCount (insertSegEdge (insertSegEdge g a b e1) a b e2).edges (a, b) = 1 ∧
    dictLookup a (insertSegEdge (insertSegEdge g a b e1) a b e2).nodes =
      some (adj ++ [b, b]) := by
  refine ⟨dictLookup_dictInsert_self _ _ _, ?_, ?_⟩
  · have h1 : keyCount (insertSegEdge g a b e1).edges (a, b) = 1 :=
      keyCount_dictInsert _ _ _ hcount
    exact keyCount_dictInsert _ _ _ (le_of_eq h1)
  · have h1 : dictLookup a (insertSegEdge g a b e1).nodes = some (adj ++ [b]) :=
      dictLookup_adjAppend_self b hadj
    have h2 := dictLookup_adjAppend_self b h1
    simpa using h2

/-- First colliding edge payload for the C10 witness. -/
def eW1 : EdgeData ℤ PtZ := { rid := 7, length := 3, geometry := ((0, 0), (10, 0)) }

/-- Second colliding edge payload for the C10 witness. -/
def eW2 : EdgeData ℤ PtZ := { rid := 8, length := 4, geometry := ((0, 0), (10, 0)) }

/-- Witness for C10 at a concrete graph. -/
theorem duplicate_segment_last_wins_witness :
    dictLookup ((0, 0), (10, 0))
      (insertSegEdge (insertSegEdge gTwoWayZ (0, 0) (10, 0) eW1) (0, 0) (10, 0) eW2).edges
      = some eW2 ∧
    keyCount
      (insertSegEdge (insertSegEdge gTwoWayZ (0, 0) (10, 0) eW1) (0, 0) (10, 0) eW2).edges
      ((0, 0), (10, 0)) = 1 ∧
    dictLookup ((0, 0) : PtZ)
      (insertSegEdge (insertSegEdge gTwoWayZ (0, 0) (10, 0) eW1) (0, 0) (10, 0) eW2).nodes
      = some [(10, 0), (10, 0), (10, 0)] :=
  duplicate_segment_last_wins gTwoWayZ (0, 0) (10, 0) [(10, 0)] eW1 eW2
    (by decide) (by decide)

end MaubinNav


namespace MaubinNav

/-! ### Structural lemmas about the build loop -/

theorem snapOne_edges {R α : Type} [LinearOrderedCommRing R] [DecidableEq α]
    (d : α → α → R) (c : α) (g : RoadGraph R α) : (snapOne d c g).2.edges = g.edges := by
  unfold snapOne
  by_cases h : get_or_create_node d (SNAP_THRESHOLD_METERS R) c g.nodes ∈ nodeKeys g
  · rw [if_pos h]
  · rw [if_neg h]

theorem snapOne_keys_mono {R α : Type} [LinearOrderedCommRing R] [DecidableEq α]
    (d : α → α → R) (c : α) (g : RoadGraph R α) :
    nodeKeys g ⊆ nodeKeys (snapOne d c g).2 := by
  unfold snapOne
  by_cases h : get_or_create_node d (SNAP_THRESHOLD_METERS R) c g.nodes ∈ nodeKeys g
  · rw [if_pos h]
    exact fun x hx => hx
  · rw [if_neg h]
    intro x hx
    simp only [nodeKeys, List.map_append] at hx ⊢
    exact List.mem_append_left _ hx

theorem snapOne_fst_mem {R α : Type} [LinearOrderedCommRing R] [DecidableEq α]
    (d : α → α → R) (c : α) (g : RoadGraph R α) :
    (snapOne d c g).1 ∈ nodeKeys (snapOne d c g).2 := by
  unfold snapOne
  by_cases h : get_or_create_node d (SNAP_THRESHOLD_METERS R) c g.nodes ∈ nodeKeys g
  · rw [if_pos h]
    exact h
  · rw [if_neg h]
    simp [nodeKeys]

theorem snapCoords_edges {R α : Type} [LinearOrderedCommRing R] [DecidableEq α]
    (d : α → α → R) : ∀ (cs : List α) (g : RoadGraph R α),
      (snapCoords d cs g).2.edges = g.edges := by
  intro cs
  induction cs with
  | nil => intro g; rfl
  | cons c cs' ih =>
    intro g
    simp only [snapCoords]
    rw [ih, snapOne_edges]

theorem snapCoords_keys_mono {R α : Type} [LinearOrderedCommRing R] [DecidableEq α]
    (d : α → α → R) : ∀ (cs : List α) (g : RoadGraph R α),
      nodeKeys g ⊆ nodeKeys (snapCoords d cs g).2 := by
  intro cs
  induction cs with
  | nil => intro g; exact fun x hx => hx
  | cons c cs' ih =>
    intro g
    simp only [snapCoords]
    exact fun x hx => ih (snapOne d c g).2 (snapOne_keys_mono d c g hx)

theorem snapCoords_mem {R α : Type} [LinearOrderedCommRing R] [DecidableEq α]
    (d : α → α → R) : ∀ (cs : List α) (g : RoadGraph R α),
      ∀ x ∈ (snapCoords d cs g).1, x ∈ nodeKeys (snapCoords d cs g).2 := by
  intro cs
  induction cs with
  | nil => intro g x hx; simp [snapCoords] at hx
  | cons c cs' ih =>
    intro g x hx
    simp only [snapCoords, List.mem_cons] at hx
    rcases hx with hx | hx
    · rw [hx]
      exact snapCoords_keys_mono d cs' (snapOne d c g).2 (snapOne_fst_mem d c g)
    · exact ih (snapOne d c g).2 x hx

theorem insertSegEdge_keys {R α : Type} [DecidableEq α] (g : RoadGraph R α) (a b : α)
    (e : EdgeData R α) : nodeKeys (insertSegEdge g a b e) = nodeKeys g := by
  simp [insertSegEdge, nodeKeys, adjAppend_keys]

theorem mem_insertSegEdge_edges {R α : Type} [DecidableEq α] {g : RoadGraph R α}
    {a b : α} {e : EdgeData R α} {kv : (α × α) × EdgeData R α}
    (h : kv ∈ (insertSegEdge g a b e).edges) : kv = ((a, b), e) ∨ kv ∈ g.edges :=
  mem_dictInsert h

theorem segStep_keys {R α : Type} [LinearOrderedCommRing R] [DecidableEq α]
    (d : α → α → R) (rid : ℕ) (lens : Option (List R)) (ow : Bool) (i : ℕ) (a b : α)
    (g : RoadGraph R α) : nodeKeys (segStep d rid lens ow i a b g) = nodeKeys g := by
  unfold segStep
  by_cases how : ow <;> simp [how, insertSegEdge_keys]

theorem mem_segStep_edges {R α : Type} [LinearOrderedCommRing R] [DecidableEq α]
    {d : α → α → R} {rid : ℕ} {lens : Option (List R)} {ow : Bool} {i : ℕ} {a b : α}
    {g : RoadGraph R α} {kv : (α × α) × EdgeData R α}
    (h : kv ∈ (segStep d rid lens ow i a b g).edges) :
    kv = ((a, b), { rid := rid, length := segLen d lens i a b, geometry := (a, b) }) ∨
    kv = ((b, a), { rid := rid, length := segLen d lens i a b, geometry := (b, a) }) ∨
    kv ∈ g.edges := by
  unfold segStep at h
  by_cases how : ow
  · rw [if_pos how] at h
    rcases mem_insertSegEdge_edges h with h' | h'
    · exact Or.inl h'
    · exact Or.inr (Or.inr h')
  · rw [if_neg how] at h
    rcases mem_insertSegEdge_edges h with h' | h'
    · exact Or.inr (Or.inl h')
    · rcases mem_insertSegEdge_edges h' with h'' | h''
      · exact Or.inl h''
      · exact Or.inr (Or.inr h'')

theorem addSegments_keys {R α : Type} [LinearOrderedCommRing R] [DecidableEq α]
    (d : α → α → R) (rid : ℕ) (lens : Option (List R)) (ow : Bool) :
    ∀ (sc : List α) (i : ℕ) (g : RoadGraph R α),
      nodeKeys (addSegments d rid lens ow i sc g) = nodeKeys g := by
  intro sc
  induction sc with
  | nil => intro i g; simp [addSegments]
  | cons a tail ih =>
    intro i g
    cases tail with
    | nil => simp [addSegments]
    | cons b rest =>
      simp only [addSegments]
      rw [ih, segStep_keys]

theorem addSegments_closed {R α : Type} [LinearOrderedCommRing R] [DecidableEq α]
    (d : α → α → R) (rid : ℕ) (lens : Option (List R)) (ow : Bool) :
    ∀ (sc : List α) (i : ℕ) (g : RoadGraph R α),
      (∀ x ∈ sc, x ∈ nodeKeys g) →
      (∀ kv ∈ g.edges, kv.1.1 ∈ nodeKeys g ∧ kv.1.2 ∈ nodeKeys g) →
      ∀ kv ∈ (addSegments d rid lens ow i sc g).edges,
        kv.1.1 ∈ nodeKeys g ∧ kv.1.2 ∈ nodeKeys g := by
  intro sc
  induction sc with
  | nil => intro i g _ hcl kv hkv; exact hcl kv (by simpa [addSegments] using hkv)
  | cons a tail ih =>
    intro i g hsc hcl kv hkv
    cases tail with
    | nil => exact hcl kv (by simpa [addSegments] using hkv)
    | cons b rest =>
      have ha : a ∈ nodeKeys g := hsc a (List.mem_cons_self a _)
      have hb : b ∈ nodeKeys g :=
        hsc b (List.mem_cons_of_mem a (List.mem_cons_self b rest))
      simp only [addSegments] at hkv
      have hkeys : nodeKeys (segStep d rid lens ow i a b g) = nodeKeys g :=
        segStep_keys d rid lens ow i a b g
      have hcl2 : ∀ kv2 ∈ (segStep d rid lens ow i a b g).edges,
          kv2.1.1 ∈ nodeKeys (segStep d rid lens ow i a b g) ∧
          kv2.1.2 ∈ nodeKeys (segStep d rid lens ow i a b g) := by
        intro kv2 hkv2
        rw [hkeys]
        rcases mem_segStep_edges hkv2 with h | h | h
        · rw [h]; exact ⟨ha, hb⟩
        · rw [h]; exact ⟨hb, ha⟩
        · exact hcl kv2 h
      have hsc2 : ∀ x ∈ b :: rest, x ∈ nodeKeys (segStep d rid lens ow i a b g) := by
        intro x hx
        rw [hkeys]
        exact hsc x (List.mem_cons_of_mem a hx)
      have hres := ih (i + 1) (segStep d rid lens ow i a b g) hsc2 hcl2 kv hkv
      rwa [hkeys] at hres

theorem buildGraphAux_closed {R α : Type} [LinearOrderedCommRing R] [DecidableEq α]
    (d : α → α → R) : ∀ (roads : List (Road R α)) (g gF : RoadGraph R α),
      (∀ kv ∈ g.edges, kv.1.1 ∈ nodeKeys g ∧ kv.1.2 ∈ nodeKeys g) →
      buildGraphAux d roads g = some gF →
      ∀ kv ∈ gF.edges, kv.1.1 ∈ nodeKeys gF ∧ kv.1.2 ∈ nodeKeys gF := by
  intro roads
  induction roads with
  | nil =>
    intro g gF hcl hb
    simp only [buildGraphAux, Option.some.injEq] at hb
    rw [← hb]
    exact hcl
  | cons r rs ih =>
    intro g gF hcl hb
    simp only [buildGraphAux] at hb
    rcases hp : parseCoords r.wkt with _ | coords
    · rw [hp] at hb; simp at hb
    · rw [hp] at hb
      simp only at hb
      have hclp : ∀ kv ∈ (snapCoords d coords g).2.edges,
          kv.1.1 ∈ nodeKeys (snapCoords d coords g).2 ∧
          kv.1.2 ∈ nodeKeys (snapCoords d coords g).2 := by
        intro kv hkv
        rw [snapCoords_edges] at hkv
        have h2 := hcl kv hkv
        exact ⟨snapCoords_keys_mono d coords g h2.1,
          snapCoords_keys_mono d coords g h2.2⟩
      have hsc : ∀ x ∈ (snapCoords d coords g).1,
          x ∈ nodeKeys (snapCoords d coords g).2 := snapCoords_mem d coords g
      have hcl2 : ∀ kv ∈ (addSegments d r.rid r.length_m r.is_oneway 0
            (snapCoords d coords g).1 (snapCoords d coords g).2).edges,
          kv.1.1 ∈ nodeKeys (addSegments d r.rid r.length_m r.is_oneway 0
            (snapCoords d coords g).1 (snapCoords d coords g).2) ∧
          kv.1.2 ∈ nodeKeys (addSegments d r.rid r.length_m r.is_oneway 0
            (snapCoords d coords g).1 (snapCoords d coords g).2) := by
        intro kv hkv
        rw [addSegments_keys]
        exact addSegments_closed d r.rid r.length_m r.is_oneway
          (snapCoords d coords g).1 0 (snapCoords d coords g).2 hsc hclp kv hkv
      exact ih _ gF hcl2 hb

/-- C9: the graph produced by a successful build is referentially closed —
both endpoint nodes of every stored edge are keys of the node→adjacency dict
of the same graph, and every node key has an (possibly empty) adjacency
list. -/
theorem build_graph_referential_closure {R α : Type} [LinearOrderedCommRing R]
    [DecidableEq α] (d : α → α → R) (roads : List (Road R α)) (g : RoadGraph R α)
    (hb : buildGraph d roads = some g) :
    (∀ kv ∈ g.edges, kv.1.1 ∈ nodeKeys g ∧ kv.1.2 ∈ nodeKeys g) ∧
    (∀ n ∈ nodeKeys g, ∃ adj, dictLookup n g.nodes = some adj) := by
  constructor
  · exact buildGraphAux_closed d roads { nodes := [], edges := [] } g
      (by intro kv hkv; simp at hkv) hb
  · intro n hn
    exact dictLookup_of_mem_keys hn

/-- Witness for C9 on the graph built from the three-node two-way road. -/
theorem build_graph_referential_closure_witness :
    (∀ kv ∈ gThreeZ.edges, kv.1.1 ∈ nodeKeys gThreeZ ∧ kv.1.2 ∈ nodeKeys gThreeZ) ∧
    (∀ n ∈ nodeKeys gThreeZ, ∃ adj, dictLookup n gThreeZ.nodes = some adj) :=
  build_graph_referential_closure dZ [rdThreeZ] gThreeZ (by decide)

/-! ### C8 (amended) — edge costs are non-negative for non-negative inputs -/

theorem getD_nonneg {R : Type} [LinearOrderedCommRing R] :
    ∀ (ls : List R), (∀ x ∈ ls, 0 ≤ x) → ∀ (dflt : R), 0 ≤ dflt →
      ∀ (i : ℕ), 0 ≤ ls.getD i dflt := by
  intro ls
  induction ls with
  | nil => intro _ dflt hd i; simpa [List.getD] using hd
  | cons x xs ih =>
    intro h dflt hd i
    cases i with
    | zero => simpa [List.getD] using h x (List.mem_cons_self x xs)
    | succ n =>
      simpa [List.getD] using ih (fun y hy => h y (List.mem_cons_of_mem x hy)) dflt hd n

theorem segLen_nonneg {R α : Type} [LinearOrderedCommRing R] (d : α → α → R)
    (lens : Option (List R)) (i : ℕ) (a b : α) (hd : ∀ x y : α, 0 ≤ d x y)
    (hl : ∀ ls, lens = some ls → ∀ x ∈ ls, 0 ≤ x) : 0 ≤ segLen d lens i a b := by
  unfold segLen
  rcases lens with _ | ls
  · exact hd a b
  · exact getD_nonneg ls (hl ls rfl) (d a b) (hd a b) i

theorem addSegments_nonneg {R α : Type} [LinearOrderedCommRing R] [DecidableEq α]
    (d : α → α → R) (rid : ℕ) (lens : Option (List R)) (ow : Bool)
    (hd : ∀ x y : α, 0 ≤ d x y)
    (hl : ∀ ls, lens = some ls → ∀ x ∈ ls, 0 ≤ x) :
    ∀ (sc : List α) (i : ℕ) (g : RoadGraph R α),
      (∀ kv ∈ g.edges, 0 ≤ kv.2.length) →
      ∀ kv ∈ (addSegments d rid lens ow i sc g).edges, 0 ≤ kv.2.length := by
  intro sc
  induction sc with
  | nil => intro i g hq kv hkv; exact hq kv (by simpa [addSegments] using hkv)
  | cons a tail ih =>
    intro i g hq kv hkv
    cases tail with
    | nil => exact hq kv (by simpa [addSegments] using hkv)
    | cons b rest =>
      simp only [addSegments] at hkv
      have hq2 : ∀ kv2 ∈ (segStep d rid lens ow i a b g).edges, 0 ≤ kv2.2.length := by
        intro kv2 hkv2
        rcases mem_segStep_edges hkv2 with h | h | h
        · rw [h]; exact segLen_nonneg d lens i a b hd hl
        · rw [h]; exact segLen_nonneg d lens i a b hd hl
        · exact hq kv2 h
      exact ih (i + 1) (segStep d rid lens ow i a b g) hq2 kv hkv

theorem buildGraphAux_nonneg {R α : Type} [LinearOrderedCommRing R] [DecidableEq α]
    (d : α → α → R) (hd : ∀ x y : α, 0 ≤ d x y) :
    ∀ (roads : List (Road R α)) (g gF : RoadGraph R α),
      (∀ r ∈ roads, ∀ ls, r.length_m = some ls → ∀ x ∈ ls, 0 ≤ x) →
      (∀ kv ∈ g.edges, 0 ≤ kv.2.length) →
      buildGraphAux d roads g = some gF →
      ∀ kv ∈ gF.edges, 0 ≤ kv.2.length := by
  intro roads
  induction roads with
  | nil =>
    intro g gF _ hq hb
    simp only [buildGraphAux, Option.some.injEq] at hb
    rw [← hb]
    exact hq
  | cons r rs ih =>
    intro g gF hroads hq hb
    simp only [buildGraphAux] at hb
    rcases hp : parseCoords r.wkt with _ | coords
    · rw [hp] at hb; simp at hb
    · rw [hp] at hb
      simp only at hb
      have hqp : ∀ kv ∈ (snapCoords d coords g).2.edges, 0 ≤ kv.2.length := by
        intro kv hkv
        rw [snapCoords_edges] at hkv
        exact hq kv hkv
      have hq2 : ∀ kv ∈ (addSegments d r.rid r.length_m r.is_oneway 0
            (snapCoords d coords g).1 (snapCoords d coords g).2).edges,
          0 ≤ kv.2.length :=
        addSegments_nonneg d r.rid r.length_m r.is_oneway hd
          (fun ls hls => hroads r (List.mem_cons_self r rs) ls hls)
          (snapCoords d coords g).1 0 (snapCoords d coords g).2 hqp
      exact ih _ gF (fun r' hr' => hroads r' (List.mem_cons_of_mem r hr')) hq2 hb

/-- C8 amended: for every edge created during graph build, its length is the
road record's provided per-segment entry when present and in range (used
without validation, see `segLen`), and otherwise the recomputed distance
between the snapped endpoints; every edge cost in the resulting graph is
≥ 0 PROVIDED all supplied per-segment lengths are ≥ 0 (and the distance
function is non-negative, as the great-circle distance is). -/
theorem edge_cost_nonneg_of_nonneg_inputs {R α : Type} [LinearOrderedCommRing R]
    [DecidableEq α] (d : α → α → R) (roads : List (Road R α)) (g : RoadGraph R α)
    (hd : ∀ x y : α, 0 ≤ d x y)
    (hroads : ∀ r ∈ roads, ∀ ls, r.length_m = some ls → ∀ x ∈ ls, 0 ≤ x)
    (hb : buildGraph d roads = some g) :
    ∀ kv ∈ g.edges, 0 ≤ kv.2.length :=
  buildGraphAux_nonneg d hd roads { nodes := [], edges := [] } g hroads
    (by intro kv hkv; simp at hkv) hb

/-- Witness for the C8 amended theorem: the first edge of the three-node
road build has non-negative length. -/
theorem edge_cost_nonneg_of_nonneg_inputs_witness :
    (0 : ℤ) ≤
      ({ rid := 2, length := 100, geometry := ((0, 0), (10, 0)) } : EdgeData ℤ PtZ).length :=
  edge_cost_nonneg_of_nonneg_inputs dZ [rdThreeZ] gThreeZ dZ_nonneg
    (by decide) (by decide)
    ((((0, 0), (10, 0)), { rid := 2, length := 100, geometry := ((0, 0), (10, 0)) }))
    (by decide)

end MaubinNav

namespace MaubinNav

/-! ### The Dijkstra loop invariant -/

/-- All stored edge lengths are non-negative. -/
abbrev EdgesNonneg {R α : Type} [LinearOrderedCommRing R] [DecidableEq α]
    (g : RoadGraph R α) : Prop :=
  ∀ kv ∈ g.edges, 0 ≤ kv.2.length

/-- The invariant maintained by the Dijkstra loop, for graph `g` and start
node `S`.  The `rank` component is a proof-side well-founded ordering of the
predecessor links: parents were popped before their children were last
relaxed, so ranks strictly decrease along `prev` and are bounded by the
number of popped nodes. -/
structure DInv {R α : Type} [LinearOrderedCommRing R] [DecidableEq α]
    (g : RoadGraph R α) (S : α) (s : DState R α) : Prop where
  nodup : s.unvisited.Nodup
  sub : s.unvisited ⊆ nodeKeys g
  lenle : s.unvisited.length ≤ (nodeKeys g).length
  prev_dom : ∀ v u, s.prev v = some u → u ∈ nodeKeys g ∧ v ∈ nodeKeys g ∧ u ∉ s.unvisited
  edge : ∀ v u, s.prev v = some u → ∃ e qu, dictLookup (u, v) g.edges = some e ∧
    s.dist u = some qu ∧ s.dist v = some (qu + e.length)
  start_prev : s.prev S = none
  start_dist : s.dist S = some 0
  nonneg : ∀ v q, s.dist v = some q → 0 ≤ q
  dist_none : ∀ v, v ≠ S → s.prev v = none → s.dist v = none
  rank : ∃ f : α → ℕ, (∀ v u, s.prev v = some u → f u < f v) ∧
    (∀ v u, s.prev v = some u →
      f v ≤ (nodeKeys g).length - s.unvisited.length) ∧
    (∀ v, v ∈ nodeKeys g → v ∉ s.unvisited →
      f v < (nodeKeys g).length - s.unvisited.length)

theorem pickMin_mem {R α : Type} [LinearOrderedCommRing R] (dist : α → Option R) :
    ∀ {l : List α} {x : α}, pickMin dist l = some x → x ∈ l := by
  intro l
  induction l with
  | nil => intro x h; simp [pickMin] at h
  | cons a as ih =>
    intro x h
    simp only [pickMin] at h
    split at h
    · simp at h
      simp [h]
    · rename_i y hy
      split at h
      · simp at h
        exact List.mem_cons_of_mem a (h ▸ ih hy)
      · simp at h
        simp [h]

/-- The invariant holds for the initial Dijkstra state. -/
theorem DInv_init {R α : Type} [LinearOrderedCommRing R] [DecidableEq α]
    (g : RoadGraph R α) (S : α) (hkeys : (nodeKeys g).Nodup) :
    DInv g S { dist := fun v => if v = S then some 0 else none,
               prev := fun _ => none,
               unvisited := nodeKeys g } := by
  refine ⟨hkeys, fun x hx => hx, le_refl _, ?_, ?_, rfl, by simp, ?_, ?_, ?_⟩
  · intro v u h; simp at h
  · intro v u h; simp at h
  · intro v q h
    by_cases hv : v = S
    · simp [hv] at h
      simp [← h]
    · simp [hv] at h
  · intro v hv _
    simp [hv]
  · refine ⟨fun _ => 0, ?_, ?_, ?_⟩
    · intro v u h; simp at h
    · intro v u h; simp at h
    · intro v hv hnv; exact absurd hv hnv

/-- Popping the chosen minimal node preserves the invariant. -/
theorem DInv_pop {R α : Type} [LinearOrderedCommRing R] [DecidableEq α]
    {g : RoadGraph R α} {S : α} {s : DState R α} (hinv : DInv g S s) {current : α}
    (hcur : current ∈ s.unvisited) :
    DInv g S { s with unvisited := s.unvisited.erase current } := by
  have hlen : (s.unvisited.erase current).length = s.unvisited.length - 1 :=
    List.length_erase_of_mem hcur
  have hlen1 : 1 ≤ s.unvisited.length :=
    List.length_pos.mpr (List.ne_nil_of_mem hcur)
  have hN := hinv.lenle
  refine ⟨hinv.nodup.erase current,
    fun x hx => hinv.sub (List.erase_subset _ _ hx), ?_, ?_, hinv.edge,
    hinv.start_prev, hinv.start_dist, hinv.nonneg, hinv.dist_none, ?_⟩
  · dsimp only
    omega
  · intro v u h
    dsimp only at h ⊢
    have h3 := hinv.prev_dom v u h
    exact ⟨h3.1, h3.2.1, fun hmem => h3.2.2 (List.erase_subset _ _ hmem)⟩
  · rcases hinv.rank with ⟨f, hf1, hf2, hf3⟩
    refine ⟨fun v => if v = current
        then (nodeKeys g).length - s.unvisited.length else f v, ?_, ?_, ?_⟩
    · intro v u h
      dsimp only at h ⊢
      have hdom := hinv.prev_dom v u h
      have hu : u ≠ current := fun he => hdom.2.2 (he ▸ hcur)
      by_cases hv : v = current
      · rw [if_pos hv, if_neg hu]
        exact hf3 u hdom.1 hdom.2.2
      · rw [if_neg hv, if_neg hu]
        exact hf1 v u h
    · intro v u h
      dsimp only at h ⊢
      rw [hlen]
      have hd := hf2 v u h
      by_cases hv : v = current
      · rw [if_pos hv]
        omega
      · rw [if_neg hv]
        omega
    · intro v hv hnv
      dsimp only at hnv ⊢
      rw [hlen]
      rw [hinv.nodup.mem_erase_iff] at hnv
      push_neg at hnv
      by_cases hvc : v = current
      · rw [if_pos hvc]
        omega
      · rw [if_neg hvc]
        have := hf3 v hv (hnv hvc)
        omega

/-- Relaxing one neighbor preserves the invariant and leaves the unvisited
set and the current node's distance unchanged. -/
theorem DInv_relaxOne {R α : Type} [LinearOrderedCommRing R] [DecidableEq α]
    {g : RoadGraph R α} {S : α} {s : DState R α} (hinv : DInv g S s)
    (hE : EdgesNonneg g) {current : α}
    (hck : current ∈ nodeKeys g) (hcu : current ∉ s.unvisited)
    (hcd : s.dist current ≠ none) (n : α) :
    DInv g S (relaxOne g current s n) ∧
    (relaxOne g current s n).unvisited = s.unvisited ∧
    (relaxOne g current s n).dist current = s.dist current := by
  unfold relaxOne
  by_cases hn : n ∈ s.unvisited
  case neg =>
    rw [if_neg hn]
    exact ⟨hinv, rfl, rfl⟩
  rw [if_pos hn]
  rcases he : dictLookup (current, n) g.edges with _ | e
  · exact ⟨hinv, rfl, rfl⟩
  rcases hqc : s.dist current with _ | qc
  · exact absurd hqc hcd
  dsimp only
  have hcn : current ≠ n := fun h => hcu (h ▸ hn)
  have hlen0 : 0 ≤ e.length := hE ((current, n), e) (dictLookup_mem he)
  have hqc0 : 0 ≤ qc := hinv.nonneg current qc hqc
  have hndval : oadd (some qc) e.length = some (qc + e.length) := rfl
  by_cases hlt : oLT (oadd (some qc) e.length) (s.dist n) = true
  case neg =>
    rw [if_neg hlt]
    exact ⟨hinv, rfl, hqc⟩
  rw [if_pos hlt]
  have hnS : n ≠ S := by
    intro hns
    rw [hndval, hns, hinv.start_dist] at hlt
    simp only [oLT, decide_eq_true_eq] at hlt
    linarith
  refine ⟨⟨hinv.nodup, hinv.sub, hinv.lenle, ?_, ?_, ?_, ?_, ?_, ?_, ?_⟩, rfl, ?_⟩
  · -- prev_dom
    intro v u h
    dsimp only at h
    by_cases hv : v = n
    · rw [if_pos hv] at h
      have hu : u = current := by injection h with h2; exact h2.symm
      exact ⟨hu ▸ hck, hinv.sub (hv ▸ hn), hu ▸ hcu⟩
    · rw [if_neg hv] at h
      exact hinv.prev_dom v u h
  · -- edge
    intro v u h
    dsimp only at h ⊢
    by_cases hv : v = n
    · rw [if_pos hv] at h
      have hu : u = current := by injection h with h2; exact h2.symm
      refine ⟨e, qc, ?_, ?_, ?_⟩
      · rw [hu, hv]; exact he
      · rw [hu, if_neg hcn, hqc]
      · rw [if_pos hv, hndval]
    · rw [if_neg hv] at h
      rcases hinv.edge v u h with ⟨e2, qu, he2, hu2, hv2⟩
      have hun : u ≠ n := fun hh => (hinv.prev_dom v u h).2.2 (hh ▸ hn)
      exact ⟨e2, qu, he2, by rw [if_neg hun]; exact hu2, by rw [if_neg hv]; exact hv2⟩
  · -- start_prev
    dsimp only
    rw [if_neg (fun h : S = n => hnS h.symm)]
    exact hinv.start_prev
  · -- start_dist
    dsimp only
    rw [if_neg (fun h : S = n => hnS h.symm)]
    exact hinv.start_dist
  · -- nonneg
    intro v q h
    dsimp only at h
    by_cases hv : v = n
    · rw [if_pos hv, hndval] at h
      injection h with h2
      rw [← h2]
      positivity
    · rw [if_neg hv] at h
      exact hinv.nonneg v q h
  · -- dist_none
    intro v hvS hp
    dsimp only at hp ⊢
    by_cases hv : v = n
    · rw [if_pos hv] at hp
      simp at hp
    · rw [if_neg hv] at hp
      rw [if_neg hv]
      exact hinv.dist_none v hvS hp
  · -- rank
    rcases hinv.rank with ⟨f, hf1, hf2, hf3⟩
    refine ⟨fun v => if v = n
        then (nodeKeys g).length - s.unvisited.length else f v, ?_, ?_, ?_⟩
    · intro v u h
      dsimp only at h ⊢
      by_cases hv : v = n
      · rw [if_pos hv] at h
        have hu : u = current := by injection h with h2; exact h2.symm
        rw [if_pos hv, hu, if_neg hcn]
        exact hf3 current hck hcu
      · rw [if_neg hv] at h
        have hun : u ≠ n := fun hh => (hinv.prev_dom v u h).2.2 (hh ▸ hn)
        rw [if_neg hv, if_neg hun]
        exact hf1 v u h
    · intro v u h
      dsimp only at h ⊢
      by_cases hv : v = n
      · rw [if_pos hv]
      · rw [if_neg hv] at h
        rw [if_neg hv]
        exact hf2 v u h
    · intro v hv hnv
      dsimp only at hnv ⊢
      have hvn : v ≠ n := fun hh => hnv (hh ▸ hn)
      rw [if_neg hvn]
      exact hf3 v hv hnv
  · -- dist current preserved
    dsimp only
    rw [if_neg hcn]
    exact hqc

/-- Relaxing all neighbors of the current node preserves the invariant. -/
theorem DInv_relaxList {R α : Type} [LinearOrderedCommRing R] [DecidableEq α]
    {g : RoadGraph R α} {S : α} (hE : EdgesNonneg g) {current : α}
    (hck : current ∈ nodeKeys g) :
    ∀ (ns : List α) (s : DState R α), DInv g S s → current ∉ s.unvisited →
      s.dist current ≠ none →
      DInv g S (relaxList g current ns s) ∧
      (relaxList g current ns s).unvisited = s.unvisited := by
  intro ns
  induction ns with
  | nil => intro s hinv _ _; exact ⟨hinv, rfl⟩
  | cons n ns' ih =>
    intro s hinv hcu hcd
    rcases DInv_relaxOne hinv hE hck hcu hcd n with ⟨hinv', hu', hd'⟩
    have hcu' : current ∉ (relaxOne g current s n).unvisited := by rw [hu']; exact hcu
    have hcd' : (relaxOne g current s n).dist current ≠ none := by rw [hd']; exact hcd
    rcases ih (relaxOne g current s n) hinv' hcu' hcd' with ⟨hinv'', hu''⟩
    exact ⟨hinv'', by rw [relaxList, hu'', hu']⟩

/-- The Dijkstra loop preserves the invariant. -/
theorem DInv_loop {R α : Type} [LinearOrderedCommRing R] [DecidableEq α]
    {g : RoadGraph R α} {S : α} (hE : EdgesNonneg g) (E : α) :
    ∀ (fuel : ℕ) (s : DState R α), DInv g S s →
      DInv g S (dijkstraLoop g E fuel s) := by
  intro fuel
  induction fuel with
  | zero => intro s hinv; exact hinv
  | succ m ih =>
    intro s hinv
    rw [dijkstraLoop]
    by_cases hemp : s.unvisited.isEmpty = true
    · rw [if_pos hemp]; exact hinv
    · rw [if_neg hemp]
      rcases hpm : pickMin s.dist s.unvisited with _ | current
      · exact hinv
      · have hcur : current ∈ s.unvisited := pickMin_mem s.dist hpm
        dsimp only
        by_cases hcd : s.dist current = none
        · rw [if_pos hcd]; exact hinv
        · rw [if_neg hcd]
          have hinv1 : DInv g S { s with unvisited := s.unvisited.erase current } :=
            DInv_pop hinv hcur
          by_cases hce : current = E
          · rw [if_pos hce]; exact hinv1
          · rw [if_neg hce]
            have hcu1 : current ∉ (s.unvisited.erase current) := by
              rw [hinv.nodup.mem_erase_iff]
              simp
            rcases DInv_relaxList hE (hinv.sub hcur)
                (adjOf g current) { s with unvisited := s.unvisited.erase current }
                hinv1 hcu1 hcd with ⟨hinv2, _⟩
            exact ih _ hinv2

/-- The invariant holds for the final state of `dijkstraCore`. -/
theorem DInv_core {R α : Type} [LinearOrderedCommRing R] [DecidableEq α]
    (g : RoadGraph R α) (S E : α) (hkeys : (nodeKeys g).Nodup) (hE : EdgesNonneg g) :
    DInv g S (dijkstraCore g S E) :=
  DInv_loop hE E (nodeKeys g).length _ (DInv_init g S hkeys)

end MaubinNav

namespace MaubinNav

/-! ### The predecessor walk and the telescoping edge sum -/

theorem walkPrev_acc {α : Type} (prev : α → Option α) :
    ∀ (fuel : ℕ) (cur : α) (acc : List α),
      walkPrev prev fuel cur acc = walkPrev prev fuel cur [] ++ acc := by
  intro fuel
  induction fuel with
  | zero => intro cur acc; rfl
  | succ m ih =>
    intro cur acc
    rcases hp : prev cur with _ | u <;> simp only [walkPrev, hp]
    · rfl
    · rw [ih u (cur :: acc), ih u [cur]]
      simp

theorem pathEdgeSum_snoc {R α : Type} [LinearOrderedCommRing R] [DecidableEq α]
    (g : RoadGraph R α) :
    ∀ (l : List α) (z c : α) (s : R) (e : EdgeData R α),
      l.getLast? = some z → pathEdgeSum g l = some s →
      dictLookup (z, c) g.edges = some e →
      pathEdgeSum g (l ++ [c]) = some (s + e.length) := by
  intro l
  induction l with
  | nil => intro z c s e hz _ _; simp at hz
  | cons x rest ih =>
    intro z c s e hz hs he
    cases rest with
    | nil =>
      simp at hz
      subst hz
      have hs0 : s = 0 := by
        simp [pathEdgeSum] at hs
        exact hs.symm
      subst hs0
      simp only [List.cons_append, List.nil_append, pathEdgeSum, he]
      rw [zero_add, add_zero]
    | cons y rest2 =>
      rw [List.getLast?_cons_cons] at hz
      rw [pathEdgeSum] at hs
      rcases h1 : dictLookup (x, y) g.edges with _ | e1 <;> rw [h1] at hs
      · simp at hs
      rcases h2 : pathEdgeSum g (y :: rest2) with _ | s1 <;> rw [h2] at hs
      · simp at hs
      simp only [Option.some.injEq] at hs
      have hrec := ih z c s1 e hz h2 he
      rw [List.cons_append] at hrec
      rw [List.cons_append, List.cons_append, pathEdgeSum, h1, hrec]
      dsimp only
      rw [← hs]
      congr 1
      ring

/-- The main walk lemma: if ranks strictly decrease along predecessor links
and every link carries a stored edge whose length telescopes distances, the
predecessor walk from any node of finite distance reaches a link-free head
and the stored edge lengths along the walked path sum to the distance
difference. -/
theorem walk_spec {R α : Type} [LinearOrderedCommRing R] [DecidableEq α]
    (g : RoadGraph R α) (prev : α → Option α) (dist : α → Option R) (f : α → ℕ)
    (hf : ∀ v u, prev v = some u → f u < f v)
    (hedge : ∀ v u, prev v = some u → ∃ e qu, dictLookup (u, v) g.edges = some e ∧
      dist u = some qu ∧ dist v = some (qu + e.length)) :
    ∀ (nn : ℕ) (cur : α) (fuel : ℕ) (q : R), f cur = nn → f cur < fuel →
      dist cur = some q →
      ∃ (l : List α) (h0 : α) (q0 : R), walkPrev prev fuel cur [] = l ∧
        l.head? = some h0 ∧ l.getLast? = some cur ∧ prev h0 = none ∧
        dist h0 = some q0 ∧ pathEdgeSum g l = some (q - q0) := by
  intro nn
  induction nn using Nat.strong_induction_on with
  | _ nn ih =>
    intro cur fuel q hfc hlt hq
    rcases fuel with _ | m
    · omega
    rcases hp : prev cur with _ | u
    · refine ⟨[cur], cur, q, ?_, rfl, rfl, hp, hq, ?_⟩
      · simp only [walkPrev, hp]
      · simp [pathEdgeSum]
    · rcases hedge cur u hp with ⟨e, qu, he, hu, hv⟩
      have hquq : q = qu + e.length := by
        rw [hq] at hv
        injection hv
      have hfu : f u < nn := hfc ▸ hf cur u hp
      have hfum : f u < m := by omega
      rcases ih (f u) (by omega) u m qu rfl hfum hu with
        ⟨l, h0, q0, hw, hh, hl, hp0, hq0, hsum⟩
      refine ⟨l ++ [cur], h0, q0, ?_, ?_, ?_, hp0, hq0, ?_⟩
      · simp only [walkPrev, hp]
        rw [walkPrev_acc prev m u [cur], hw]
      · rcases l with _ | ⟨a, l2⟩
        · simp at hh
        · simpa using hh
      · simp
      · have hstep := pathEdgeSum_snoc g l u cur (qu - q0) e hl hsum he
        rw [hstep, hquq]
        congr 1
        ring

/-- On success (`previous_nodes.get(end_node)` recorded, finite distance),
the walked node path's stored edge lengths sum exactly to
`distances[end_node]`. -/
theorem core_success_path_sum {R α : Type} [LinearOrderedCommRing R] [DecidableEq α]
    (g : RoadGraph R α) (S E : α) (hkeys : (nodeKeys g).Nodup) (hE : EdgesNonneg g)
    (u : α) (qE : R) (hp : (dijkstraCore g S E).prev E = some u)
    (hq : (dijkstraCore g S E).dist E = some qE) :
    pathEdgeSum g
      (walkPrev (dijkstraCore g S E).prev ((nodeKeys g).length + 1) E []) = some qE := by
  have hinv := DInv_core g S E hkeys hE
  rcases hinv.rank with ⟨f, hf1, hf2, hf3⟩
  have hfE : f E < (nodeKeys g).length + 1 := by
    have := hf2 E u hp
    omega
  rcases walk_spec g (dijkstraCore g S E).prev (dijkstraCore g S E).dist f hf1 hinv.edge
      (f E) E ((nodeKeys g).length + 1) qE rfl hfE hq with
    ⟨l, h0, q0, hw, hh, hl, hp0, hq0, hsum⟩
  have hh0S : h0 = S := by
    by_contra hne
    rw [hinv.dist_none h0 hne hp0] at hq0
    exact Option.noConfusion hq0
  have hq00 : q0 = 0 := by
    rw [hh0S, hinv.start_dist] at hq0
    injection hq0 with h2
    exact h2.symm
  rw [hw, hsum, hq00, sub_zero]

/-- Every stored-edge path contributes real segments whose lengths sum to the
stored edge-length sum. -/
theorem reconSegs_sum {R α : Type} [LinearOrderedCommRing R] [DecidableEq α]
    (d : α → α → R) (g : RoadGraph R α) :
    ∀ (l : List α) (s : R), pathEdgeSum g l = some s →
      segsSum (reconSegs d g l) = s := by
  intro l
  induction l with
  | nil =>
    intro s h
    simp only [pathEdgeSum, Option.some.injEq] at h
    simp [reconSegs, segsSum, ← h]
  | cons x rest ih =>
    cases rest with
    | nil =>
      intro s h
      simp only [pathEdgeSum, Option.some.injEq] at h
      simp [reconSegs, segsSum, ← h]
    | cons y rest2 =>
      intro s h
      rw [pathEdgeSum] at h
      rcases h1 : dictLookup (x, y) g.edges with _ | e <;> rw [h1] at h
      · simp at h
      rcases h2 : pathEdgeSum g (y :: rest2) with _ | s1 <;> rw [h2] at h
      · simp at h
      simp only [Option.some.injEq] at h
      have hmid := ih s1 h2
      rw [reconSegs, h1]
      simp only [segsSum, List.map_cons, List.sum_cons] at hmid ⊢
      rw [hmid, h]

theorem segsSum_append {R : Type} [LinearOrderedCommRing R]
    (l1 l2 : List (Segment R)) : segsSum (l1 ++ l2) = segsSum l1 + segsSum l2 := by
  simp [segsSum]

end MaubinNav

namespace MaubinNav

/-! ### C1 — the Dijkstra cost equals the edge-length sum along the path -/

/-- C1: for every graph with non-negative stored edge lengths (and distinct
node keys, as in every built graph) and every start/end node pair for which
the Dijkstra computation returns a node path, the reported cost
`distances[end_node]` equals the sum of the stored edge lengths joining each
consecutive node pair along the returned path (in particular such an edge
exists for every consecutive pair). -/
theorem dijkstra_cost_eq_path_edge_sum {R α : Type} [LinearOrderedCommRing R]
    [DecidableEq α] (g : RoadGraph R α) (S E : α) (path : List α) (cost : R)
    (hkeys : (nodeKeys g).Nodup) (hE : EdgesNonneg g)
    (h : dijkstraNodePath g S E = some (path, cost)) :
    pathEdgeSum g path = some cost := by
  unfold dijkstraNodePath at h
  dsimp only at h
  rcases hp : (dijkstraCore g S E).prev E with _ | u <;>
    rcases hq : (dijkstraCore g S E).dist E with _ | qE <;>
      rw [hp, hq] at h <;> dsimp only at h
  · exact Option.noConfusion h
  · exact Option.noConfusion h
  · exact Option.noConfusion h
  · simp only [Option.some.injEq, Prod.mk.injEq] at h
    obtain ⟨h1, h2⟩ := h
    rw [← h1, ← h2]
    exact core_success_path_sum g S E hkeys hE u qE hp hq

/-- Witness for C1 on the three-node built graph: the returned node path and
its reported cost 300 = 100 + 200. -/
theorem dijkstra_cost_eq_path_edge_sum_witness :
    pathEdgeSum gThreeZ [((0, 0) : PtZ), (10, 0), (25, 0)] = some 300 :=
  dijkstra_cost_eq_path_edge_sum gThreeZ (0, 0) (25, 0)
    [((0, 0) : PtZ), (10, 0), (25, 0)] 300 (by decide) (by decide) (by decide)

/-! ### C2 — the returned total distance and its two decompositions -/

/-- Auxiliary: the optional user-road connector segment list sums to the
distance it carries, given that the distance vanishes whenever the guard
fails. -/
theorem segsSum_if_single {R : Type} [LinearOrderedCommRing R] (c : Prop)
    [Decidable c] (t : SegTag) (x : R) (h0 : ¬ c → x = 0) :
    segsSum (if c then [{ tag := t, length := x }] else []) = x := by
  by_cases hc : c
  · rw [if_pos hc]
    simp [segsSum]
  · rw [if_neg hc, h0 hc]
    simp [segsSum]

/-- C2: whenever the route computation succeeds (for a graph with distinct
node keys and non-negative stored edge lengths, and a distance function that
is non-negative and zero on the diagonal, as great-circle distance is), the
returned total equals the start-to-startNode distance plus the Dijkstra cost
at the end node plus the endNode-to-end distance, and the lengths of the
returned segments sum to exactly that same total. -/
theorem route_total_distance_decomposition {R α : Type} [LinearOrderedCommRing R]
    [DecidableEq α] (d : α → α → R) (g : RoadGraph R α) (p q : α)
    (coords : List α) (total : R) (segs : List (Segment R))
    (hkeys : (nodeKeys g).Nodup) (hE : EdgesNonneg g)
    (hd0 : ∀ x, d x x = 0) (hdnn : ∀ x y, 0 ≤ d x y)
    (h : dijkstra d g p q = some (coords, total, segs)) :
    ∃ sN eN qE, find_nearest_node d g p = some sN ∧
      find_nearest_node d g q = some eN ∧
      (dijkstraCore g sN eN).dist eN = some qE ∧
      total = d p sN + qE + d eN q ∧ segsSum segs = total := by
  unfold dijkstra at h
  rcases hs : find_nearest_node d g p with _ | sN <;>
    rcases he : find_nearest_node d g q with _ | eN <;>
      (try rw [hs] at h) <;> (try rw [he] at h) <;> (try dsimp only at h)
  · exact Option.noConfusion h
  · exact Option.noConfusion h
  · exact Option.noConfusion h
  · rcases hp : (dijkstraCore g sN eN).prev eN with _ | u <;>
      rcases hq : (dijkstraCore g sN eN).dist eN with _ | qE <;>
        (try rw [hp] at h) <;> (try rw [hq] at h) <;> (try dsimp only at h)
    · exact Option.noConfusion h
    · exact Option.noConfusion h
    · exact Option.noConfusion h
    · simp only [Option.some.injEq, Prod.mk.injEq] at h
      obtain ⟨-, htot, hsegs⟩ := h
      refine ⟨sN, eN, qE, ?_, ?_, ?_, htot.symm, ?_⟩
      · first
        | rfl
        | exact hs
      · first
        | rfl
        | exact he
      · first
        | rfl
        | exact hq
      rw [← hsegs, ← htot]
      rw [segsSum_append, segsSum_append]
      have hmid := reconSegs_sum d g
        (walkPrev (dijkstraCore g sN eN).prev ((nodeKeys g).length + 1) eN []) qE
        (core_success_path_sum g sN eN hkeys hE u qE hp hq)
      rw [hmid]
      have h1 : segsSum (if p ≠ sN ∧ 0 < d p sN
          then [{ tag := SegTag.userToRoad, length := d p sN }] else []) = d p sN := by
        apply segsSum_if_single
        intro hc
        by_cases hps : p = sN
        · rw [hps, hd0]
        · push_neg at hc
          exact le_antisymm (hc hps) (hdnn p sN)
      have h2 : segsSum (if q ≠ eN ∧ 0 < d eN q
          then [{ tag := SegTag.roadToUser, length := d eN q }] else []) = d eN q := by
        apply segsSum_if_single
        intro hc
        by_cases hqe : q = eN
        · rw [hqe, hd0]
        · push_neg at hc
          exact le_antisymm (hc hqe) (hdnn eN q)
      rw [h1, h2]

/-- Witness for C2: the query from (0,1) to (25,0) over the three-node graph
succeeds with total 301 = 1 + 300 + 0, and the returned segments
(user_to_road 1, road 100, road 200) sum to 301. -/
theorem route_total_distance_decomposition_witness :
    ∃ sN eN qE, find_nearest_node dZ gThreeZ ((0, 1) : PtZ) = some sN ∧
      find_nearest_node dZ gThreeZ ((25, 0) : PtZ) = some eN ∧
      (dijkstraCore gThreeZ sN eN).dist eN = some qE ∧
      (301 : ℤ) = dZ (0, 1) sN + qE + dZ eN (25, 0) ∧
      segsSum [({ tag := SegTag.userToRoad, length := 1 } : Segment ℤ),
        { tag := SegTag.real 2, length := 100 },
        { tag := SegTag.real 2, length := 200 }] = 301 :=
  route_total_distance_decomposition dZ gThreeZ (0, 1) (25, 0)
    [(0, 1), (0, 0), (10, 0), (25, 0)] 301
    [{ tag := SegTag.userToRoad, length := 1 },
     { tag := SegTag.real 2, length := 100 },
     { tag := SegTag.real 2, length := 200 }]
    (by decide) (by decide) dZ_self dZ_nonneg (by decide)

/-! ### C5 (amended) — NoPath is decided solely by the missing predecessor -/

/-- When start and end resolve to the same node, the loop pops the start
first (the only node at finite distance) and immediately breaks on
`current == end_node`, so no predecessor is ever recorded. -/
theorem core_same_prev_none {R α : Type} [LinearOrderedCommRing R] [DecidableEq α]
    (g : RoadGraph R α) (S v : α) : (dijkstraCore g S S).prev v = none := by
  unfold dijkstraCore
  rcases hN : (nodeKeys g).length with _ | m
  · rfl
  · rw [dijkstraLoop]
    dsimp only
    by_cases hemp : (nodeKeys g).isEmpty = true
    · rw [if_pos hemp]
    · rw [if_neg hemp]
      rcases hpm : pickMin (fun w => if w = S then some (0 : R) else none) (nodeKeys g)
        with _ | current
      · rfl
      · dsimp only
        by_cases hcd : (if current = S then some (0 : R) else none) = none
        · rw [if_pos hcd]
        · rw [if_neg hcd]
          have hcs : current = S := by
            by_cases hx : current = S
            · exact hx
            · rw [if_neg hx] at hcd
              exact absurd rfl hcd
          rw [if_pos hcs]

/-- C5 amended: with both endpoints resolved, `dijkstra` returns the no-path
result EXACTLY when no predecessor was recorded for the end node — and a
query whose endpoints resolve to the same node never records a predecessor
(the start is popped first, with its 0 self-distance, and the loop breaks),
so it also returns the no-path result, contrary to the original claim. -/
theorem dijkstra_nopath_characterization {R α : Type} [LinearOrderedCommRing R]
    [DecidableEq α] (d : α → α → R) (g : RoadGraph R α) (p q sN eN : α)
    (hkeys : (nodeKeys g).Nodup) (hE : EdgesNonneg g)
    (hs : find_nearest_node d g p = some sN) (he : find_nearest_node d g q = some eN) :
    (dijkstra d g p q = none ↔ (dijkstraCore g sN eN).prev eN = none) ∧
    (sN = eN → dijkstra d g p q = none) := by
  have hinv := DInv_core g sN eN hkeys hE
  have hmain : dijkstra d g p q = none ↔ (dijkstraCore g sN eN).prev eN = none := by
    constructor
    · intro hnone
      by_contra hpne
      rcases Option.ne_none_iff_exists'.mp hpne with ⟨u, hp⟩
      rcases hinv.edge eN u hp with ⟨e, qu, _, _, hv⟩
      unfold dijkstra at hnone
      rw [hs, he] at hnone
      dsimp only at hnone
      rw [hp, hv] at hnone
      simp at hnone
    · intro hp
      unfold dijkstra
      rw [hs, he]
      dsimp only
      rw [hp]
  refine ⟨hmain, ?_⟩
  intro hse
  rw [hmain]
  subst hse
  exact core_same_prev_none g sN sN

/-- Witness for the C5 amended theorem: both endpoints of the query resolve
to the node (0,0) of the two-node graph, and the query indeed returns the
no-path result. -/
theorem dijkstra_nopath_characterization_witness :
    (dijkstra dZ gTwoWayZ (0, 0) (3, 0) = none ↔
      (dijkstraCore gTwoWayZ ((0, 0) : PtZ) ((0, 0) : PtZ)).prev (0, 0) = none) ∧
    (((0, 0) : PtZ) = (0, 0) → dijkstra dZ gTwoWayZ (0, 0) (3, 0) = none) :=
  dijkstra_nopath_characterization dZ gTwoWayZ (0, 0) (3, 0) (0, 0) (0, 0)
    (by decide) (by decide) (by decide) (by decide)

/-! ### C6 (amended) — the outcome classes of plan_route -/

/-- An unresolved endpoint already makes `dijkstra` return the `(None, 0,
[])` result, the same value returned when no path exists. -/
theorem dijkstra_unresolved_none {R α : Type} [LinearOrderedCommRing R] [DecidableEq α]
    (d : α → α → R) (g : RoadGraph R α) (p q : α)
    (h : find_nearest_node d g p = none ∨ find_nearest_node d g q = none) :
    dijkstra d g p q = none := by
  unfold dijkstra
  rcases h1 : find_nearest_node d g p with _ | sN <;>
    rcases h2 : find_nearest_node d g q with _ | eN <;> try rfl
  exfalso
  rcases h with h | h
  · rw [h1] at h
    exact Option.noConfusion h
  · rw [h2] at h
    exact Option.noConfusion h

/-- C6 amended: `plan_route` distinguishes missing coordinates and invalid
coordinates, but reports the SAME `noValidRoute` outcome (the 404 response)
both when an endpoint has no node within 500 m and when the two resolved
nodes are not connected — the unresolved-endpoint case is not distinguished
from the no-path case. -/
theorem plan_route_outcome_classes {R : Type} [LinearOrderedCommRing R]
    (d : R × R → R × R → R) (g : RoadGraph R (R × R)) :
    (∀ inp : RouteInput R,
      inp.start_lon = none ∨ inp.start_lat = none ∨
        inp.end_lon = none ∨ inp.end_lat = none →
      plan_route d g inp = RouteOutcome.missingCoords) ∧
    (∀ x1 x2 x3 : Option R,
      plan_route d g
        { start_lon := some none, start_lat := some x1,
          end_lon := some x2, end_lat := some x3 } = RouteOutcome.invalidCoords) ∧
    (∀ slon slat elon elat : R,
      find_nearest_node d g (slon, slat) = none ∨
        find_nearest_node d g (elon, elat) = none →
      plan_route d g
        { start_lon := some (some slon), start_lat := some (some slat),
          end_lon := some (some elon), end_lat := some (some elat) } =
        RouteOutcome.noValidRoute) ∧
    (∀ slon slat elon elat : R, dijkstra d g (slon, slat) (elon, elat) = none →
      plan_route d g
        { start_lon := some (some slon), start_lat := some (some slat),
          end_lon := some (some elon), end_lat := some (some elat) } =
        RouteOutcome.noValidRoute) := by
  have h4 : ∀ slon slat elon elat : R, dijkstra d g (slon, slat) (elon, elat) = none →
      plan_route d g
        { start_lon := some (some slon), start_lat := some (some slat),
          end_lon := some (some elon), end_lat := some (some elat) } =
        RouteOutcome.noValidRoute := by
    intro slon slat elon elat hdij
    unfold plan_route
    rw [if_neg (by simp)]
    dsimp only
    rw [hdij]
  refine ⟨?_, ?_, ?_, h4⟩
  · intro inp hmiss
    unfold plan_route
    rw [if_pos hmiss]
  · intro x1 x2 x3
    unfold plan_route
    rw [if_neg (by simp)]
  · intro slon slat elon elat h
    exact h4 slon slat elon elat (dijkstra_unresolved_none d g _ _ h)

/-- Witness for the C6 amended theorem: a request with a missing start
longitude yields the missing-coordinates outcome. -/
theorem plan_route_outcome_classes_witness :
    plan_route dZ gEmptyZ
      { start_lon := none, start_lat := some (some 0),
        end_lon := some (some 1), end_lat := some (some 0) } =
      RouteOutcome.missingCoords :=
  (plan_route_outcome_classes dZ gEmptyZ).1 _ (Or.inl rfl)

end MaubinNav
